import Mathlib

/-!
Verification of the CRAM container/slice codec core of the `noodles`
library against its specification.

The Rust source is shallowly embedded: machine integers become `Nat`/`Int`
(with explicit range checks where the source performs fallible
conversions), byte buffers become `List Nat`, fallible operations return
`Except`, and `panic!`/`todo!` paths are a dedicated result constructor.
Definitions are translated from the source files; the few items whose
source is not available (the ITF8 integer codec, some key tables and the
substitution-matrix build) are modelled from the specification and marked
as such in their doc comments.
-/

deriving instance DecidableEq for Except

namespace Noodles

/-! ## Adaptive arithmetic-coder model (`codecs/aac/model.rs`) -/

/-- The order-0 adaptive frequency model (`struct Model` in
`codecs/aac/model.rs`): `total_freq : u32`, `symbols : Vec<u8>`,
`frequencies : Vec<u32>`, embedded with `Nat` entries. -/
structure Model where
  totalFreq : Nat
  symbols : List Nat
  frequencies : List Nat
  deriving DecidableEq, Repr

/-- `Model::new(max_sym)`: symbols `0..=max_sym`, all frequencies 1,
`total_freq = max_sym + 1`. -/
def Model.new (maxSym : Nat) : Model :=
  { totalFreq := maxSym + 1
    symbols := List.range (maxSym + 1)
    frequencies := List.replicate (maxSym + 1) 1 }

/-- The linear scan of `Model::decode`:
`while acc + frequencies[x] <= freq { acc += frequencies[x]; x += 1 }`.
Returns `(x, acc)`; `none` models the index-out-of-bounds panic when the
scan runs past the end of the frequency vector. -/
def scanSymbol : List Nat → Nat → Option (Nat × Nat)
  | [], _ => none
  | fr :: rest, f =>
    if f < fr then some (0, 0)
    else
      match scanSymbol rest (f - fr) with
      | none => none
      | some (x, acc) => some (x + 1, fr + acc)

/-- `*freq -= *freq / 2` from `Model::renormalize`. -/
def halveUp (n : Nat) : Nat := n - n / 2

/-- `Vec::swap(x, x - 1)` on a list: both values are read from the
original list, then written back exchanged. -/
def swapAdj (l : List Nat) (x : Nat) : List Nat :=
  (l.set (x - 1) (l.getD x 0)).set x (l.getD (x - 1) 0)

/-- `Model::decode`, with the frequency obtained from
`range_coder.range_get_freq(total_freq)` passed in as `f` (the range
coder itself is I/O state that does not touch the model; `range_decode`
only advances the coder). `none` models the out-of-bounds panics. -/
def Model.decode (m : Model) (f : Nat) : Option (Nat × Model) :=
  match scanSymbol m.frequencies f with
  | none => none
  | some (x, _acc) =>
    if x < m.symbols.length then
      let fs1 := m.frequencies.set x (m.frequencies.getD x 0 + 16)
      let total1 := m.totalFreq + 16
      let fs2 := if 65519 < total1 then fs1.map halveUp else fs1
      let total2 := if 65519 < total1 then (fs1.map halveUp).sum else total1
      let sym := m.symbols.getD x 0
      if 0 < x ∧ fs2.getD (x - 1) 0 < fs2.getD x 0 then
        some (sym, ⟨total2, swapAdj m.symbols x, swapAdj fs2 x⟩)
      else
        some (sym, ⟨total2, m.symbols, fs2⟩)
    else none

/-- Runs `Model::decode` on a sequence of range-coder frequencies,
threading the model state; `none` as soon as one call panics. -/
def Model.decodeSeq (m : Model) : List Nat → Option Model
  | [] => some m
  | f :: fs =>
    match m.decode f with
    | none => none
    | some (_, m') => m'.decodeSeq fs

/-! ## Encoding algebra (`data_container/compression_header/encoding.rs`,
evidenced in src by `writer/.../encoding.rs` and `writer/record.rs`) -/

/-- The ten encoding kinds of the algebra, with the parameter layout used
by `writer/data_container/compression_header/encoding.rs` (i32 parameters
become `Int`, u8/u32 become `Nat`). -/
inductive Encoding where
  | null
  | external (blockContentId : Int)
  | golomb (offset m : Int)
  | huffman (alphabet : List Int) (bitLens : List Nat)
  | byteArrayLen (lenEncoding valueEncoding : Encoding)
  | byteArrayStop (stopByte : Nat) (blockContentId : Int)
  | beta (offset : Int) (len : Nat)
  | subexp (offset k : Int)
  | golombRice (offset log2m : Int)
  | gamma (offset : Int)
  deriving DecidableEq, Repr

/-- The data-series vocabulary (`DataSeries` enum; all 30 variants appear
in the `match` of `reader/.../data_series_encoding_map.rs`). -/
inductive DataSeries where
  | bamBitFlags
  | cramBitFlags
  | referenceId
  | readLengths
  | inSeqPositions
  | readGroups
  | readNames
  | nextMateBitFlags
  | nextFragmentReferenceSequenceId
  | nextMateAlignmentStart
  | templateSize
  | distanceToNextFragment
  | tagIds
  | numberOfReadFeatures
  | readFeaturesCodes
  | inReadPositions
  | deletionLengths
  | stretchesOfBases
  | stretchesOfQualityScores
  | baseSubstitutionCodes
  | insertion
  | referenceSkipLength
  | padding
  | hardClip
  | softClip
  | mappingQualities
  | bases
  | qualityScores
  | reservedTc
  | reservedTn
  deriving DecidableEq, Repr

/-- `i32::MAX`. -/
def i32Max : Nat := 2147483647

/-- Errors surfaced by the record writer (`WriteRecordError` plus the
`io::ErrorKind::InvalidInput` conversion/asymmetry errors). -/
inductive WErr where
  | invalidInput
  | missingDataSeriesEncoding (ds : DataSeries)
  | missingTagEncoding
  | missingExternalBlock (blockContentId : Int)
  deriving DecidableEq, Repr

/-- Result of a writer operation: `panic` models `todo!()` and integer
underflow panics. -/
inductive WResult (α : Type) where
  | ok (val : α)
  | error (err : WErr)
  | panic
  deriving DecidableEq, Repr

/-- Modelled from the spec: ITF8 serialization of an `i32`
(`writer/num.rs::write_itf8` is not under src). 1-5 bytes; the high bits
of the first byte indicate the continuation length; negative values take
the 5-byte form through their 32-bit two's-complement image. -/
def itf8Bytes (v : Int) : List Nat :=
  let u := (v % 4294967296).toNat
  if u < 128 then [u]
  else if u < 16384 then [128 + u / 256, u % 256]
  else if u < 2097152 then [192 + u / 65536, u / 256 % 256, u % 256]
  else if u < 268435456 then
    [224 + u / 16777216, u / 65536 % 256, u / 256 % 256, u % 256]
  else
    [240 + u / 268435456, u / 1048576 % 256, u / 4096 % 256,
      u / 16 % 256, u % 16]

/-- The state threaded through the record writer: the core bit writer
(`BitWriter`, a bit buffer) and the external block writers
(`HashMap<i32, X>`, an association of block content id to byte buffer). -/
structure WState where
  core : List Bool
  external : List (Int × List Nat)
  deriving DecidableEq, Repr

/-- `external_data_writers.get_mut(block_content_id)` (lookup only). -/
def lookupBlock : List (Int × List Nat) → Int → Option (List Nat)
  | [], _ => none
  | (k, buf) :: rest, id => if k = id then some buf else lookupBlock rest id

/-- Appends bytes to the buffer of the given block content id. -/
def appendBlock : List (Int × List Nat) → Int → List Nat → List (Int × List Nat)
  | [], _, _ => []
  | (k, buf) :: rest, id, bs =>
    if k = id then (k, buf ++ bs) :: rest else (k, buf) :: appendBlock rest id bs

/-- `encode_itf8` (`writer/record.rs:979-1004`): only
`Encoding::External` is implemented; every other kind hits `todo!()`. -/
def encodeItf8 (encoding : Encoding) (st : WState) (value : Int) : WResult WState :=
  match encoding with
  | .external blockContentId =>
    match lookupBlock st.external blockContentId with
    | none => .error (.missingExternalBlock blockContentId)
    | some _ =>
      .ok { st with external := appendBlock st.external blockContentId (itf8Bytes value) }
  | _ => .panic

/-- `encode_byte` (`writer/record.rs:952-977`): only `Encoding::External`
is implemented; every other kind hits `todo!()`. -/
def encodeByte (encoding : Encoding) (st : WState) (value : Nat) : WResult WState :=
  match encoding with
  | .external blockContentId =>
    match lookupBlock st.external blockContentId with
    | none => .error (.missingExternalBlock blockContentId)
    | some _ =>
      .ok { st with external := appendBlock st.external blockContentId [value] }
  | _ => .panic

/-- `encode_byte_array` (`writer/record.rs:1006-1058`): `External`,
`ByteArrayLen` and `ByteArrayStop` are implemented; every other kind hits
`todo!()`. -/
def encodeByteArray (encoding : Encoding) (st : WState) (data : List Nat) :
    WResult WState :=
  match encoding with
  | .external blockContentId =>
    match lookupBlock st.external blockContentId with
    | none => .error (.missingExternalBlock blockContentId)
    | some _ =>
      .ok { st with external := appendBlock st.external blockContentId data }
  | .byteArrayLen lenEncoding valueEncoding =>
    if data.length ≤ i32Max then
      match encodeItf8 lenEncoding st (Int.ofNat data.length) with
      | .ok st' => encodeByteArray valueEncoding st' data
      | .error e => .error e
      | .panic => .panic
    else .error .invalidInput
  | .byteArrayStop stopByte blockContentId =>
    match lookupBlock st.external blockContentId with
    | none => .error (.missingExternalBlock blockContentId)
    | some _ =>
      .ok { st with
        external := appendBlock st.external blockContentId (data ++ [stopByte]) }
  | _ => .panic

/-! ## Data-series encoding map (struct and builder modelled; the struct
itself is not under src, but `writer/record.rs` fixes which getters are
infallible and `reader/.../data_series_encoding_map.rs` uses the builder) -/

/-- Modelled from the spec and the src call sites: the six series whose
getters are used without an error path in `writer/record.rs` (BF, CF, RL,
AP, RG, TL) are mandatory fields; the remaining series are optional. -/
structure DataSeriesEncodingMap where
  bamBitFlags : Encoding
  cramBitFlags : Encoding
  readLengths : Encoding
  inSeqPositions : Encoding
  readGroups : Encoding
  tagIds : Encoding
  referenceId : Option Encoding
  readNames : Option Encoding
  nextMateBitFlags : Option Encoding
  nextFragmentReferenceSequenceId : Option Encoding
  nextMateAlignmentStart : Option Encoding
  templateSize : Option Encoding
  distanceToNextFragment : Option Encoding
  numberOfReadFeatures : Option Encoding
  readFeaturesCodes : Option Encoding
  inReadPositions : Option Encoding
  deletionLengths : Option Encoding
  stretchesOfBases : Option Encoding
  stretchesOfQualityScores : Option Encoding
  baseSubstitutionCodes : Option Encoding
  insertion : Option Encoding
  referenceSkipLength : Option Encoding
  padding : Option Encoding
  hardClip : Option Encoding
  softClip : Option Encoding
  mappingQualities : Option Encoding
  bases : Option Encoding
  qualityScores : Option Encoding
  deriving DecidableEq, Repr

/-- The builder's assignments: which series have been given an encoding
(`DataSeriesEncodingMap::builder()` state). -/
def DSEMBuilder : Type := DataSeries → Option Encoding

/-- A builder with no entries. -/
def emptyDSEMBuilder : DSEMBuilder := fun _ => none

/-- One `set_*_encoding` call on the builder. -/
def setSeries (b : DSEMBuilder) (ds : DataSeries) (e : Encoding) : DSEMBuilder :=
  fun d => if d = ds then some e else b d

/-- Modelled from the spec: the builder's `build` error (one variant per
missing mandatory series). -/
inductive DSEMBuildError where
  | missingEncoding (ds : DataSeries)
  deriving DecidableEq, Repr

/-- Modelled from the spec and the src call sites: `Builder::build`
requires the six mandatory series and copies the optional ones. -/
def buildDSEM (b : DSEMBuilder) : Except DSEMBuildError DataSeriesEncodingMap :=
  match b DataSeries.bamBitFlags with
  | none => .error (.missingEncoding .bamBitFlags)
  | some bf =>
    match b DataSeries.cramBitFlags with
    | none => .error (.missingEncoding .cramBitFlags)
    | some cf =>
      match b DataSeries.readLengths with
      | none => .error (.missingEncoding .readLengths)
      | some rl =>
        match b DataSeries.inSeqPositions with
        | none => .error (.missingEncoding .inSeqPositions)
        | some ap =>
          match b DataSeries.readGroups with
          | none => .error (.missingEncoding .readGroups)
          | some rg =>
            match b DataSeries.tagIds with
            | none => .error (.missingEncoding .tagIds)
            | some tl =>
              .ok { bamBitFlags := bf
                    cramBitFlags := cf
                    readLengths := rl
                    inSeqPositions := ap
                    readGroups := rg
                    tagIds := tl
                    referenceId := b DataSeries.referenceId
                    readNames := b DataSeries.readNames
                    nextMateBitFlags := b DataSeries.nextMateBitFlags
                    nextFragmentReferenceSequenceId :=
                      b DataSeries.nextFragmentReferenceSequenceId
                    nextMateAlignmentStart := b DataSeries.nextMateAlignmentStart
                    templateSize := b DataSeries.templateSize
                    distanceToNextFragment := b DataSeries.distanceToNextFragment
                    numberOfReadFeatures := b DataSeries.numberOfReadFeatures
                    readFeaturesCodes := b DataSeries.readFeaturesCodes
                    inReadPositions := b DataSeries.inReadPositions
                    deletionLengths := b DataSeries.deletionLengths
                    stretchesOfBases := b DataSeries.stretchesOfBases
                    stretchesOfQualityScores := b DataSeries.stretchesOfQualityScores
                    baseSubstitutionCodes := b DataSeries.baseSubstitutionCodes
                    insertion := b DataSeries.insertion
                    referenceSkipLength := b DataSeries.referenceSkipLength
                    padding := b DataSeries.padding
                    hardClip := b DataSeries.hardClip
                    softClip := b DataSeries.softClip
                    mappingQualities := b DataSeries.mappingQualities
                    bases := b DataSeries.bases
                    qualityScores := b DataSeries.qualityScores }

/-- A minimal concrete map: the six mandatory series routed to external
block 1 and every optional series absent. -/
def exampleDSEM : DataSeriesEncodingMap :=
  { bamBitFlags := .external 1
    cramBitFlags := .external 1
    readLengths := .external 1
    inSeqPositions := .external 1
    readGroups := .external 1
    tagIds := .external 1
    referenceId := none
    readNames := none
    nextMateBitFlags := none
    nextFragmentReferenceSequenceId := none
    nextMateAlignmentStart := none
    templateSize := none
    distanceToNextFragment := none
    numberOfReadFeatures := none
    readFeaturesCodes := none
    inReadPositions := none
    deletionLengths := none
    stretchesOfBases := none
    stretchesOfQualityScores := none
    baseSubstitutionCodes := none
    insertion := none
    referenceSkipLength := none
    padding := none
    hardClip := none
    softClip := none
    mappingQualities := none
    bases := none
    qualityScores := none }

/-! ## Record writer (`writer/record.rs`) -/

/-- `Writer::write_bam_bit_flags` (`writer/record.rs:114-128`): the BF
encoding is obtained from the map without any error path and the u16
flags are widened to i32. -/
def writeBamBitFlags (dsem : DataSeriesEncodingMap) (st : WState)
    (bamFlags : Nat) : WResult WState :=
  encodeItf8 dsem.bamBitFlags st (Int.ofNat (bamFlags % 65536))

/-- `Writer::write_reference_id` (`writer/record.rs:158-184`): a missing
RI encoding is `MissingDataSeriesEncoding(ReferenceId)`; the id is
converted to i32 (`InvalidInput` on overflow), `-1` when absent. -/
def writeReferenceId (dsem : DataSeriesEncodingMap) (st : WState)
    (referenceSequenceId : Option Nat) : WResult WState :=
  match dsem.referenceId with
  | none => .error (.missingDataSeriesEncoding .referenceId)
  | some encoding =>
    match referenceSequenceId with
    | some id =>
      if id ≤ i32Max then encodeItf8 encoding st (Int.ofNat id)
      else .error .invalidInput
    | none => encodeItf8 encoding st (-1)

/-- `usize -> i32` conversion (`i32::try_from` with the error mapped to
`InvalidInput`). -/
def tryI32 (n : Nat) : Except WErr Int :=
  if n ≤ i32Max then .ok (Int.ofNat n) else .error .invalidInput

/-- The AP value computed by `Writer::write_alignment_start`
(`writer/record.rs:203-247`) before it is handed to `encode_itf8`.
Alignment starts are 1-based `Position`s embedded as `Nat`. -/
def apValue (apDataSeriesDelta : Bool) (prev cur : Option Nat) : Except WErr Int :=
  if apDataSeriesDelta then
    match cur, prev with
    | none, none => .ok 0
    | some alignmentStart, some prevAlignmentStart => do
      let a ← tryI32 alignmentStart
      let p ← tryI32 prevAlignmentStart
      .ok (a - p)
    | _, _ => .error .invalidInput
  else
    tryI32 (cur.getD 0)

/-- The sequence of AP values produced by writing records through one
`Writer`: `prev_alignment_start` is seeded from the writer's
`initial_alignment_start` and, after each record, set to that record's
`alignment_start` (`writer/record.rs:88-112`, line 109). -/
def apValues (apDataSeriesDelta : Bool) :
    Option Nat → List (Option Nat) → Except WErr (List Int)
  | _, [] => .ok []
  | prev, cur :: rest => do
    let v ← apValue apDataSeriesDelta prev cur
    let vs ← apValues apDataSeriesDelta cur rest
    .ok (v :: vs)

/-- The expected AP delta for one record (0 when both ends are absent). -/
def apDelta1 : Option Nat → Option Nat → Int
  | some prev, some cur => (Int.ofNat cur) - Int.ofNat prev
  | _, _ => 0

/-- Whether one (previous, current) alignment-start pair is accepted in
delta mode: both absent, or both present and convertible to i32. -/
def apPairOk : Option Nat → Option Nat → Bool
  | none, none => true
  | some p, some a => decide (p ≤ i32Max) && decide (a ≤ i32Max)
  | _, _ => false

/-- All consecutive pairs are accepted, starting from the seed. -/
def apChainOk : Option Nat → List (Option Nat) → Bool
  | _, [] => true
  | prev, cur :: rest => apPairOk prev cur && apChainOk cur rest

/-- `Writer::write_mapped_read` (`writer/record.rs:512-532`) restricted
to the FP series: the deltas `usize::from(feature.position()) -
prev_position` handed to `write_feature_position`
(`writer/record.rs:626-647`), with `prev_position` starting at 0.
`panic` models the usize subtraction underflow; the `i32::try_from` in
`write_feature_position` yields `InvalidInput` on overflow. -/
def fpDeltas : Nat → List Nat → WResult (List Int)
  | _, [] => .ok []
  | prevPosition, p :: rest =>
    if p < prevPosition then .panic
    else if p - prevPosition ≤ i32Max then
      match fpDeltas p rest with
      | .ok ds => .ok (Int.ofNat (p - prevPosition) :: ds)
      | .error e => .error e
      | .panic => .panic
    else .error .invalidInput

/-! ## Substitution matrix
(`data_container/compression_header/preservation_map/substitution_matrix/builder.rs`;
the `SubstitutionMatrix::from(Histogram)` build step is not under src and
is modelled from the spec) -/

/-- A reference/read base for the substitution matrix; N is a distinct
symbol. -/
inductive Base where
  | A
  | C
  | G
  | T
  | N
  deriving DecidableEq, Repr

/-- The canonical base order A < C < G < T < N. -/
def canonicalBases : List Base := [.A, .C, .G, .T, .N]

/-- Index of a base in the canonical order. -/
def Base.canonicalIdx : Base → Nat
  | .A => 0
  | .C => 1
  | .G => 2
  | .T => 3
  | .N => 4

/-- Modelled from the spec: the histogram counts observed
(reference base, read base) substitution pairs (the `Histogram` type is
not under src; `Builder::update` only calls `histogram.hit`). -/
def Histogram : Type := Base → Base → Nat

/-- The ranking relation for one reference row: descending observed
count, ties broken by the canonical order. -/
def rankLE (h : Histogram) (r : Base) (a b : Base) : Prop :=
  h r b < h r a ∨ (h r a = h r b ∧ a.canonicalIdx ≤ b.canonicalIdx)

instance (h : Histogram) (r : Base) : DecidableRel (rankLE h r) := fun a b => by
  unfold rankLE
  infer_instance

/-- Modelled from the spec: one row of `SubstitutionMatrix::from(Histogram)`
(not under src): enumerate the four non-`r` bases in canonical order and
stable-sort them by descending count, ties broken by the canonical
order; entry `c` of the row is the read base assigned code `c`. -/
def subRow (h : Histogram) (r : Base) : List Base :=
  List.insertionSort (rankLE h r) (canonicalBases.filter (fun b => ¬ b = r))

/-- The full 5×4 substitution table, one row per reference base. -/
def buildSubstitutionMatrix (h : Histogram) : List (List Base) :=
  canonicalBases.map (subRow h)

/-- The spec's example observations (§8 scenario 4 and the unit test in
`substitution_matrix/builder.rs`): at reference base A, read bases
T, T, C, G, G, T were observed. -/
def exampleHistogram : Histogram := fun r b =>
  match r, b with
  | .A, .T => 3
  | .A, .G => 2
  | .A, .C => 1
  | _, _ => 0

/-! ## Reader primitives -/

/-- `io::ErrorKind`s surfaced by the compression-header readers. -/
inductive RErr where
  | unexpectedEof
  | invalidData
  | invalidInput
  deriving DecidableEq, Repr

/-- Reads one byte from the buffer
(`Buf::get_u8` after a `has_remaining` check). -/
def getU8 : List Nat → Except RErr (Nat × List Nat)
  | [] => .error .unexpectedEof
  | b :: rest => .ok (b, rest)

/-- 32-bit unsigned value reinterpreted as i32. -/
def toI32 (u : Nat) : Int :=
  if u < 2147483648 then Int.ofNat u else Int.ofNat u - 4294967296

/-- Modelled from the spec: ITF8 deserialization
(`reader/num.rs::get_itf8` is not under src). The high bits of the first
byte select the 1-5 byte form; the 5-byte form keeps only the low 4 bits
of the final byte and is reinterpreted as i32. -/
def getItf8 (buf : List Nat) : Except RErr (Int × List Nat) := do
  let (b0, r0) ← getU8 buf
  if b0 < 128 then
    .ok (Int.ofNat b0, r0)
  else if b0 < 192 then do
    let (b1, r1) ← getU8 r0
    .ok (Int.ofNat ((b0 % 128) * 256 + b1), r1)
  else if b0 < 224 then do
    let (b1, r1) ← getU8 r0
    let (b2, r2) ← getU8 r1
    .ok (Int.ofNat ((b0 % 64) * 65536 + b1 * 256 + b2), r2)
  else if b0 < 240 then do
    let (b1, r1) ← getU8 r0
    let (b2, r2) ← getU8 r1
    let (b3, r3) ← getU8 r2
    .ok (Int.ofNat ((b0 % 32) * 16777216 + b1 * 65536 + b2 * 256 + b3), r3)
  else do
    let (b1, r1) ← getU8 r0
    let (b2, r2) ← getU8 r1
    let (b3, r3) ← getU8 r2
    let (b4, r4) ← getU8 r3
    .ok (toI32 ((b0 % 16) * 268435456 + b1 * 1048576 + b2 * 4096
          + b3 * 16 + b4 % 16), r4)

/-- `usize::try_from(itf8).map_err(InvalidData)` as used by the
compression-header readers. -/
def usizeOfItf8 (v : Int) : Except RErr Nat :=
  if v < 0 then .error .invalidData else .ok v.toNat

/-! ## Tag IDs dictionary
(`reader/.../preservation_map.rs::get_tag_ids_dictionary`) -/

/-- A tag key: two tag bytes and one type byte
(`tag_ids_dictionary::Key`). -/
structure TagKey where
  tag0 : Nat
  tag1 : Nat
  ty : Nat
  deriving DecidableEq, Repr

/-- Modelled from the spec: `Tag::try_from([u8; 2])` and
`Type::try_from(u8)` (from the sibling SAM library, not under src)
accept ASCII bytes; a key is two ASCII tag bytes plus one ASCII type
byte, and invalid bytes are an `InvalidData` error. -/
def tagKeyOfBytes (t0 t1 ty : Nat) : Except RErr TagKey :=
  if t0 < 128 ∧ t1 < 128 ∧ ty < 128 then .ok ⟨t0, t1, ty⟩
  else .error .invalidData

/-- `chunks_exact(3)`: complete 3-byte chunks, the 1-2 byte remainder is
dropped. -/
def chunks3 : List Nat → List (Nat × Nat × Nat)
  | a :: b :: c :: rest => (a, b, c) :: chunks3 rest
  | _ => []

/-- Parses the keys of the chunks of one dictionary line. -/
def parseTagChunks : List (Nat × Nat × Nat) → Except RErr (List TagKey)
  | [] => .ok []
  | (a, b, c) :: rest => do
    let k ← tagKeyOfBytes a b c
    let ks ← parseTagChunks rest
    .ok (k :: ks)

/-- One NUL-terminated line: `keys_buf.chunks_exact(3)` parsed into tag
keys. -/
def parseTagLine (bs : List Nat) : Except RErr (List TagKey) :=
  parseTagChunks (chunks3 bs)

/-- The `while let Some(i) = buf.iter().position(|&b| b == NUL)` loop of
`get_tag_ids_dictionary`, walked byte by byte: `acc` collects the bytes
of the current line up to the next NUL (so when the NUL at position `i`
is found, `acc` is `buf.take i` and the loop continues on
`buf.drop (i + 1)`); when the buffer runs out with no NUL, the collected
bytes are discarded and the loop stops. -/
def parseTDGo (acc : List Nat) : List Nat → Except RErr (List (List TagKey))
  | [] => .ok []
  | b :: rest =>
    if b = 0 then
      match parseTagLine acc with
      | .error e => .error e
      | .ok line =>
        match parseTDGo [] rest with
        | .error e => .error e
        | .ok lines => .ok (line :: lines)
    else parseTDGo (acc ++ [b]) rest

/-- The line loop of `get_tag_ids_dictionary` over its window. -/
def parseTDLines (buf : List Nat) : Except RErr (List (List TagKey)) :=
  parseTDGo [] buf

/-- `get_tag_ids_dictionary` (`reader/.../preservation_map.rs:116-154`):
an ITF8 data length, an EOF check, then the line loop over exactly that
window. -/
def getTagIdsDictionary (src : List Nat) :
    Except RErr (List (List TagKey) × List Nat) := do
  let (dataLenI, r0) ← getItf8 src
  let dataLen ← usizeOfItf8 dataLenI
  if r0.length < dataLen then .error .unexpectedEof
  else do
    let dictionary ← parseTDLines (r0.take dataLen)
    .ok (dictionary, r0.drop dataLen)

/-! ## Preservation map (`reader/.../preservation_map.rs`) -/

/-- The preservation-map key vocabulary (`preservation_map::Key`). -/
inductive PMKey where
  | readNamesIncluded
  | apDataSeriesDelta
  | referenceRequired
  | substitutionMatrix
  | tagIdsDictionary
  deriving DecidableEq, Repr

/-- Modelled from the spec: `Key::try_from([u8; 2])` (not under src) maps
the two-letter ASCII keys RN, AP, RR, SM, TD; anything else is invalid. -/
def pmKeyOfBytes (b0 b1 : Nat) : Option PMKey :=
  if b0 = 82 ∧ b1 = 78 then some .readNamesIncluded
  else if b0 = 65 ∧ b1 = 80 then some .apDataSeriesDelta
  else if b0 = 82 ∧ b1 = 82 then some .referenceRequired
  else if b0 = 83 ∧ b1 = 77 then some .substitutionMatrix
  else if b0 = 84 ∧ b1 = 68 then some .tagIdsDictionary
  else none

/-- `get_key`: two bytes (EOF-checked), then `Key::try_from` with its
error mapped to `InvalidData`. -/
def getPMKey : List Nat → Except RErr (PMKey × List Nat)
  | b0 :: b1 :: rest =>
    match pmKeyOfBytes b0 b1 with
    | some k => .ok (k, rest)
    | none => .error .invalidData
  | _ => .error .unexpectedEof

/-- `get_bool`: one byte; 0 is false, 1 is true, anything else is
`InvalidData`. -/
def getPMBool (src : List Nat) : Except RErr (Bool × List Nat) := do
  let (b, rest) ← getU8 src
  if b = 0 then .ok (false, rest)
  else if b = 1 then .ok (true, rest)
  else .error .invalidData

/-- The five packed substitution-matrix bytes as read off the wire.
Modelled from the spec: `SubstitutionMatrix::try_from([u8; 5])` (not
under src) unpacks four 2-bit codes per byte and succeeds on any five
bytes. -/
structure SubstitutionMatrixCodes where
  raw : List Nat
  deriving DecidableEq, Repr

/-- `get_substitution_matrix`: five bytes (EOF-checked). -/
def getSubstitutionMatrix (src : List Nat) :
    Except RErr (SubstitutionMatrixCodes × List Nat) :=
  if src.length < 5 then .error .unexpectedEof
  else .ok (⟨src.take 5⟩, src.drop 5)

/-- One decoded preservation-map entry. -/
inductive PMEntry where
  | rn (value : Bool)
  | ap (value : Bool)
  | rr (value : Bool)
  | sm (value : SubstitutionMatrixCodes)
  | td (value : List (List TagKey))
  deriving DecidableEq, Repr

/-- Parses one key/value entry of the preservation map. -/
def getPMEntry (buf : List Nat) : Except RErr (PMEntry × List Nat) := do
  let (key, buf) ← getPMKey buf
  match key with
  | .readNamesIncluded => do
    let (b, buf) ← getPMBool buf
    .ok (.rn b, buf)
  | .apDataSeriesDelta => do
    let (b, buf) ← getPMBool buf
    .ok (.ap b, buf)
  | .referenceRequired => do
    let (b, buf) ← getPMBool buf
    .ok (.rr b, buf)
  | .substitutionMatrix => do
    let (sm, buf) ← getSubstitutionMatrix buf
    .ok (.sm sm, buf)
  | .tagIdsDictionary => do
    let (td, buf) ← getTagIdsDictionary buf
    .ok (.td td, buf)

/-- Parses `n` entries in sequence. -/
def getPMEntries : Nat → List Nat → Except RErr (List PMEntry × List Nat)
  | 0, buf => .ok ([], buf)
  | n + 1, buf =>
    match getPMEntry buf with
    | .error e => .error e
    | .ok (e, buf') =>
      match getPMEntries n buf' with
      | .error e2 => .error e2
      | .ok (es, buf'') => .ok (e :: es, buf'')

/-- Whether an entry carries the RN key. -/
def PMEntry.isRN : PMEntry → Bool
  | .rn _ => true
  | _ => false

/-- Whether an entry carries the AP key. -/
def PMEntry.isAP : PMEntry → Bool
  | .ap _ => true
  | _ => false

/-- Whether an entry carries the RR key. -/
def PMEntry.isRR : PMEntry → Bool
  | .rr _ => true
  | _ => false

/-- Whether an entry carries the SM key. -/
def PMEntry.isSM : PMEntry → Bool
  | .sm _ => true
  | _ => false

/-- Whether an entry carries the TD key. -/
def PMEntry.isTD : PMEntry → Bool
  | .td _ => true
  | _ => false

/-- The mutable locals of `get_preservation_map`'s entry loop. -/
structure PMState where
  readNamesIncluded : Bool
  apDataSeriesDelta : Bool
  referenceRequired : Bool
  substitutionMatrix : Option SubstitutionMatrixCodes
  tagIdsDictionary : Option (List (List TagKey))
  deriving DecidableEq, Repr

/-- The loop's initial state: the three booleans default to `true`, the
matrix and dictionary start absent. -/
def pmInit : PMState :=
  { readNamesIncluded := true
    apDataSeriesDelta := true
    referenceRequired := true
    substitutionMatrix := none
    tagIdsDictionary := none }

/-- Applies one decoded entry to the loop state. -/
def pmApply (st : PMState) : PMEntry → PMState
  | .rn b => { st with readNamesIncluded := b }
  | .ap b => { st with apDataSeriesDelta := b }
  | .rr b => { st with referenceRequired := b }
  | .sm v => { st with substitutionMatrix := some v }
  | .td v => { st with tagIdsDictionary := some v }

/-- The entry loop of `get_preservation_map`
(`reader/.../preservation_map.rs:33-51`). -/
def pmLoop : Nat → PMState → List Nat → Except RErr (PMState × List Nat)
  | 0, st, buf => .ok (st, buf)
  | n + 1, st, buf =>
    match getPMEntry buf with
    | .error e => .error e
    | .ok (e, buf') => pmLoop n (pmApply st e) buf'

/-- The decoded preservation map (`PreservationMap::new` arguments). -/
structure PreservationMap where
  readNamesIncluded : Bool
  apDataSeriesDelta : Bool
  referenceRequired : Bool
  substitutionMatrix : SubstitutionMatrixCodes
  tagIdsDictionary : List (List TagKey)
  deriving DecidableEq, Repr

/-- The final `ok_or` checks of `get_preservation_map`: a still-absent
substitution matrix or tag IDs dictionary is `InvalidData`. -/
def pmFinish (st : PMState) : Except RErr PreservationMap :=
  match st.substitutionMatrix with
  | none => .error .invalidData
  | some sm =>
    match st.tagIdsDictionary with
    | none => .error .invalidData
    | some td =>
      .ok { readNamesIncluded := st.readNamesIncluded
            apDataSeriesDelta := st.apDataSeriesDelta
            referenceRequired := st.referenceRequired
            substitutionMatrix := sm
            tagIdsDictionary := td }

/-- `get_preservation_map` (`reader/.../preservation_map.rs:14-66`):
ITF8 data length, EOF check, the entry loop over the split-off window
(`for _ in 0..map_len` runs zero times for a negative count), then the
presence checks. -/
def getPreservationMap (src : List Nat) :
    Except RErr (PreservationMap × List Nat) :=
  match getItf8 src with
  | .error e => .error e
  | .ok (dataLenI, r0) =>
    match usizeOfItf8 dataLenI with
    | .error e => .error e
    | .ok dataLen =>
      if r0.length < dataLen then .error .unexpectedEof
      else
        match getItf8 (r0.take dataLen) with
        | .error e => .error e
        | .ok (mapLenI, buf) =>
          match pmLoop mapLenI.toNat pmInit buf with
          | .error e => .error e
          | .ok (st, _) =>
            match pmFinish st with
            | .error e => .error e
            | .ok pm => .ok (pm, r0.drop dataLen)

/-! ## Data-series encoding map reader
(`reader/.../data_series_encoding_map.rs`) -/

/-- Modelled from the spec: `DataSeries::try_from([u8; 2])` (not under
src) maps the closed two-letter ASCII vocabulary of §2, including the
reserved keys TC and TN; anything else is invalid. -/
def dsFromBytes (b0 b1 : Nat) : Option DataSeries :=
  if b0 = 66 ∧ b1 = 70 then some .bamBitFlags
  else if b0 = 67 ∧ b1 = 70 then some .cramBitFlags
  else if b0 = 82 ∧ b1 = 73 then some .referenceId
  else if b0 = 82 ∧ b1 = 76 then some .readLengths
  else if b0 = 65 ∧ b1 = 80 then some .inSeqPositions
  else if b0 = 82 ∧ b1 = 71 then some .readGroups
  else if b0 = 82 ∧ b1 = 78 then some .readNames
  else if b0 = 77 ∧ b1 = 70 then some .nextMateBitFlags
  else if b0 = 78 ∧ b1 = 83 then some .nextFragmentReferenceSequenceId
  else if b0 = 78 ∧ b1 = 80 then some .nextMateAlignmentStart
  else if b0 = 84 ∧ b1 = 83 then some .templateSize
  else if b0 = 78 ∧ b1 = 70 then some .distanceToNextFragment
  else if b0 = 84 ∧ b1 = 76 then some .tagIds
  else if b0 = 70 ∧ b1 = 78 then some .numberOfReadFeatures
  else if b0 = 70 ∧ b1 = 67 then some .readFeaturesCodes
  else if b0 = 70 ∧ b1 = 80 then some .inReadPositions
  else if b0 = 68 ∧ b1 = 76 then some .deletionLengths
  else if b0 = 66 ∧ b1 = 66 then some .stretchesOfBases
  else if b0 = 81 ∧ b1 = 81 then some .stretchesOfQualityScores
  else if b0 = 66 ∧ b1 = 83 then some .baseSubstitutionCodes
  else if b0 = 73 ∧ b1 = 78 then some .insertion
  else if b0 = 82 ∧ b1 = 83 then some .referenceSkipLength
  else if b0 = 80 ∧ b1 = 68 then some .padding
  else if b0 = 72 ∧ b1 = 67 then some .hardClip
  else if b0 = 83 ∧ b1 = 67 then some .softClip
  else if b0 = 77 ∧ b1 = 81 then some .mappingQualities
  else if b0 = 66 ∧ b1 = 65 then some .bases
  else if b0 = 81 ∧ b1 = 83 then some .qualityScores
  else if b0 = 84 ∧ b1 = 67 then some .reservedTc
  else if b0 = 84 ∧ b1 = 78 then some .reservedTn
  else none

/-- `get_key` (`reader/.../data_series_encoding_map.rs:82-95`): two
bytes (EOF-checked), then `DataSeries::try_from` with its error mapped
to `InvalidData`. -/
def getDSKey : List Nat → Except RErr (DataSeries × List Nat)
  | b0 :: b1 :: rest =>
    match dsFromBytes b0 b1 with
    | some ds => .ok (ds, rest)
    | none => .error .invalidData
  | _ => .error .unexpectedEof

/-- Reads `n` consecutive ITF8 values. -/
def getItf8s : Nat → List Nat → Except RErr (List Int × List Nat)
  | 0, buf => .ok ([], buf)
  | n + 1, buf => do
    let (v, buf) ← getItf8 buf
    let (vs, buf') ← getItf8s n buf
    .ok (v :: vs, buf')

/-- `u32::try_from(itf8)` with the error mapped to `InvalidData`. -/
def u32OfItf8 (v : Int) : Except RErr Nat :=
  if v < 0 then .error .invalidData else .ok v.toNat

/-- `u32::try_from` over a list of ITF8 values. -/
def natsOfItf8s : List Int → Except RErr (List Nat)
  | [] => .ok []
  | v :: vs => do
    let n ← u32OfItf8 v
    let ns ← natsOfItf8s vs
    .ok (n :: ns)

/-- Modelled from the spec: `get_encoding` (the reader-side encoding
descriptor parser is not under src; the wire layout mirrors
`writer/.../encoding.rs`): an ITF8 kind tag, an ITF8 args length, the
split-off args block parsed per kind (recursively for ByteArrayLen), an
unknown kind tag is `InvalidData`. The fuel argument only bounds the
nesting depth of ByteArrayLen; each nested descriptor lies strictly
inside its parent's args block, so `buf.length + 1` fuel always
suffices. -/
def getEncodingF : Nat → List Nat → Except RErr (Encoding × List Nat)
  | 0, _ => .error .invalidData
  | fuel + 1, buf => do
    let (kind, r1) ← getItf8 buf
    let (argsLenI, r2) ← getItf8 r1
    let argsLen ← usizeOfItf8 argsLenI
    if r2.length < argsLen then .error .unexpectedEof
    else do
      let args := r2.take argsLen
      let rest := r2.drop argsLen
      if kind = 0 then .ok (.null, rest)
      else if kind = 1 then do
        let (blockContentId, _) ← getItf8 args
        .ok (.external blockContentId, rest)
      else if kind = 2 then do
        let (offset, a1) ← getItf8 args
        let (m, _) ← getItf8 a1
        .ok (.golomb offset m, rest)
      else if kind = 3 then do
        let (alphabetLenI, a1) ← getItf8 args
        let (alphabet, a2) ← getItf8s alphabetLenI.toNat a1
        let (lensLenI, a3) ← getItf8 a2
        let (lensI, _) ← getItf8s lensLenI.toNat a3
        let bitLens ← natsOfItf8s lensI
        .ok (.huffman alphabet bitLens, rest)
      else if kind = 4 then do
        let (lenEncoding, a1) ← getEncodingF fuel args
        let (valueEncoding, _) ← getEncodingF fuel a1
        .ok (.byteArrayLen lenEncoding valueEncoding, rest)
      else if kind = 5 then do
        let (stopByte, a1) ← getU8 args
        let (blockContentId, _) ← getItf8 a1
        .ok (.byteArrayStop stopByte blockContentId, rest)
      else if kind = 6 then do
        let (offset, a1) ← getItf8 args
        let (lenI, _) ← getItf8 a1
        let len ← u32OfItf8 lenI
        .ok (.beta offset len, rest)
      else if kind = 7 then do
        let (offset, a1) ← getItf8 args
        let (k, _) ← getItf8 a1
        .ok (.subexp offset k, rest)
      else if kind = 8 then do
        let (offset, a1) ← getItf8 args
        let (log2m, _) ← getItf8 a1
        .ok (.golombRice offset log2m, rest)
      else if kind = 9 then do
        let (offset, _) ← getItf8 args
        .ok (.gamma offset, rest)
      else .error .invalidData

/-- The encoding-descriptor parser at its canonical fuel. -/
def getEncoding (buf : List Nat) : Except RErr (Encoding × List Nat) :=
  getEncodingF (buf.length + 1) buf

/-- One builder update of the DSEM entry loop: known keys set their
series' encoding, the reserved keys TC and TN leave the builder
untouched. -/
def applyDSEntry (b : DSEMBuilder) (key : DataSeries) (enc : Encoding) :
    DSEMBuilder :=
  match key with
  | .reservedTc => b
  | .reservedTn => b
  | ds => setSeries b ds enc

/-- The entry loop of `get_data_series_encoding_map`
(`reader/.../data_series_encoding_map.rs:28-76`). -/
def dsemLoop : Nat → DSEMBuilder → List Nat →
    Except RErr (DSEMBuilder × List Nat)
  | 0, b, buf => .ok (b, buf)
  | n + 1, b, buf =>
    match getDSKey buf with
    | .error e => .error e
    | .ok (key, r) =>
      match getEncoding r with
      | .error e => .error e
      | .ok (enc, r') => dsemLoop n (applyDSEntry b key enc) r'

/-- `get_data_series_encoding_map`
(`reader/.../data_series_encoding_map.rs:13-80`): ITF8 data length, EOF
check, the entry loop over the split-off window starting from an empty
builder, then `build()` with its error mapped to `InvalidData`. -/
def getDataSeriesEncodingMap (src : List Nat) :
    Except RErr (DataSeriesEncodingMap × List Nat) := do
  let (dataLenI, r0) ← getItf8 src
  let dataLen ← usizeOfItf8 dataLenI
  if r0.length < dataLen then .error .unexpectedEof
  else do
    let window := r0.take dataLen
    let (mapLenI, buf) ← getItf8 window
    let (b, _) ← dsemLoop mapLenI.toNat emptyDSEMBuilder buf
    match buildDSEM b with
    | .error _ => .error .invalidData
    | .ok dsem => .ok (dsem, r0.drop dataLen)

/-! ## Helper lemmas -/

theorem sum_take_mono (fs : List Nat) {a b : Nat} (h : a ≤ b) :
    (fs.take a).sum ≤ (fs.take b).sum := by
  have h1 : fs.take a = (fs.take b).take a := by
    rw [List.take_take, Nat.min_eq_left h]
  rw [h1]
  conv_rhs => rw [← List.take_append_drop a (fs.take b)]
  rw [List.sum_append]
  exact Nat.le_add_right _ _

theorem scanSymbol_spec (fs : List Nat) (f : Nat) (h : f < fs.sum) :
    ∃ x, scanSymbol fs f = some (x, (fs.take x).sum) ∧ x < fs.length ∧
      (fs.take x).sum ≤ f ∧ f < (fs.take (x + 1)).sum := by
  induction fs generalizing f with
  | nil => simp at h
  | cons fr rest ih =>
    by_cases hf : f < fr
    · refine ⟨0, by simp [scanSymbol, hf], by simp, by simp, ?_⟩
      simp only [List.take_succ_cons, List.take_zero, List.sum_cons,
        List.sum_nil]
      omega
    · push_neg at hf
      have h' : f - fr < rest.sum := by
        simp only [List.sum_cons] at h
        omega
      obtain ⟨x, hscan, hxlen, hle, hlt⟩ := ih (f - fr) h'
      refine ⟨x + 1, ?_, by simpa using Nat.succ_lt_succ hxlen, ?_, ?_⟩
      · simp [scanSymbol, Nat.not_lt.mpr hf, hscan, List.sum_cons]
      · simp only [List.take_succ_cons, List.sum_cons]
        omega
      · simp only [List.take_succ_cons, List.sum_cons] at hlt ⊢
        omega

theorem scanSymbol_some_lt (fs : List Nat) (f x acc : Nat)
    (h : scanSymbol fs f = some (x, acc)) : x < fs.length := by
  induction fs generalizing f x acc with
  | nil => simp [scanSymbol] at h
  | cons fr rest ih =>
    unfold scanSymbol at h
    by_cases hf : f < fr
    · rw [if_pos hf] at h
      simp only [Option.some.injEq, Prod.mk.injEq] at h
      simp only [List.length_cons]
      omega
    · simp only [if_neg hf] at h
      cases hs : scanSymbol rest (f - fr) with
      | none => rw [hs] at h; simp at h
      | some p =>
        obtain ⟨x', acc'⟩ := p
        rw [hs] at h
        simp only [Option.some.injEq, Prod.mk.injEq] at h
        have := ih _ _ _ hs
        simp only [List.length_cons]
        omega

/-- C2: for every model state satisfying the structural invariant and
every range-coder frequency below `total_freq`, `Model::decode` selects
the least index `x` whose inclusive frequency prefix sum exceeds the
obtained frequency, bumps `frequencies[x]` and `total_freq` by 16,
renormalizes (each `f` becomes `f - f / 2`, `total_freq` the new sum)
exactly when the bumped `total_freq` exceeds `2^16 - 17 = 65519`, swaps
the adjacent entries only afterwards, and returns `symbols[x]` as read
before any swap. -/
theorem model_decode_step (m : Model) (f : Nat)
    (hlen : m.symbols.length = m.frequencies.length)
    (htot : m.totalFreq = m.frequencies.sum)
    (hf : f < m.totalFreq) :
    ∃ x, x < m.frequencies.length ∧
      f < (m.frequencies.take (x + 1)).sum ∧
      (∀ y, y < x → (m.frequencies.take (y + 1)).sum ≤ f) ∧
      (let bumped := m.frequencies.set x (m.frequencies.getD x 0 + 16)
       let renormed :=
         if 65519 < m.totalFreq + 16 then bumped.map halveUp else bumped
       let newTotal :=
         if 65519 < m.totalFreq + 16 then (bumped.map halveUp).sum
         else m.totalFreq + 16
       m.decode f =
         some (m.symbols.getD x 0,
           if 0 < x ∧ renormed.getD (x - 1) 0 < renormed.getD x 0 then
             ⟨newTotal, swapAdj m.symbols x, swapAdj renormed x⟩
           else ⟨newTotal, m.symbols, renormed⟩)) := by
  obtain ⟨x, hscan, hxlen, hle, hlt⟩ :=
    scanSymbol_spec m.frequencies f (htot ▸ hf)
  have hx' : x < m.symbols.length := by omega
  refine ⟨x, hxlen, hlt, ?_, ?_⟩
  · intro y hy
    exact Nat.le_trans (sum_take_mono m.frequencies (by omega)) hle
  · simp only [Model.decode, hscan, if_pos hx']
    split <;> split <;> rfl

/-- C2 witness: the hypotheses of `model_decode_step` hold for the fresh
three-symbol model and frequency 1, and the decode step succeeds. -/
theorem model_decode_step_witness :
    ((Model.new 2).symbols.length = (Model.new 2).frequencies.length ∧
      (Model.new 2).totalFreq = (Model.new 2).frequencies.sum ∧
      1 < (Model.new 2).totalFreq) ∧
    ((Model.new 2).decode 1).isSome = true := by
  refine ⟨⟨by decide, by decide, by decide⟩, ?_⟩
  obtain ⟨x, -, -, -, h⟩ :=
    model_decode_step (Model.new 2) 1 (by decide) (by decide) (by decide)
  simp only at h
  rw [h]
  rfl

theorem swapAdj_length (l : List Nat) (x : Nat) :
    (swapAdj l x).length = l.length := by
  simp [swapAdj]

theorem swapAdj_perm (l : List Nat) (x : Nat) (hx0 : 0 < x)
    (hx : x < l.length) : (swapAdj l x).Perm l := by
  induction l generalizing x with
  | nil => simp at hx
  | cons c t ih =>
    match x, hx0 with
    | 1, _ =>
      match t with
      | [] => simp at hx
      | d :: t' =>
        simp only [swapAdj, List.getD_cons_succ, List.getD_cons_zero,
          List.set_cons_zero, List.set_cons_succ]
        exact List.Perm.swap c d t'
    | x + 2, _ =>
      have hx' : x + 1 < t.length := by
        simp only [List.length_cons] at hx
        omega
      have step :
          swapAdj (c :: t) (x + 2) = c :: swapAdj t (x + 1) := by
        simp [swapAdj, List.getD_cons_succ, List.set_cons_succ]
      rw [step]
      exact List.Perm.cons c (ih (x + 1) (by omega) hx')

theorem sum_set_getD_add (fs : List Nat) (x n : Nat) (h : x < fs.length) :
    (fs.set x (fs.getD x 0 + n)).sum = fs.sum + n := by
  induction fs generalizing x with
  | nil => simp at h
  | cons fr rest ih =>
    cases x with
    | zero => simp [List.sum_cons]; omega
    | succ x' =>
      simp only [List.getD_cons_succ, List.set_cons_succ, List.sum_cons]
      rw [ih x' (by simpa using h)]
      omega

theorem halveUp_pos (n : Nat) (h : 1 ≤ n) : 1 ≤ halveUp n := by
  unfold halveUp
  omega

/-- One decode step preserves the model invariant. -/
theorem decode_preserves (m m' : Model) (s f : Nat)
    (hlen : m.symbols.length = m.frequencies.length)
    (htot : m.totalFreq = m.frequencies.sum)
    (hpos : ∀ fr ∈ m.frequencies, 1 ≤ fr)
    (hd : m.decode f = some (s, m')) :
    m'.totalFreq = m'.frequencies.sum ∧
    (∀ fr ∈ m'.frequencies, 1 ≤ fr) ∧
    m'.symbols.Perm m.symbols ∧
    m'.symbols.length = m'.frequencies.length := by
  cases hscan : scanSymbol m.frequencies f with
  | none =>
    simp only [Model.decode, hscan] at hd
    exact absurd hd (by simp)
  | some p =>
    obtain ⟨x, acc⟩ := p
    have hxf : x < m.frequencies.length := scanSymbol_some_lt _ _ _ _ hscan
    have hxs : x < m.symbols.length := by omega
    simp only [Model.decode, hscan, if_pos hxs] at hd
    set bumped := m.frequencies.set x (m.frequencies.getD x 0 + 16) with hbumped
    have hblen : bumped.length = m.frequencies.length := by
      simp [hbumped]
    have hbsum : bumped.sum = m.frequencies.sum + 16 :=
      sum_set_getD_add m.frequencies x 16 hxf
    have hbpos : ∀ fr ∈ bumped, 1 ≤ fr := by
      intro fr hfr
      rcases List.mem_or_eq_of_mem_set hfr with hmem | heq
      · exact hpos fr hmem
      · omega
    by_cases hren : 65519 < m.totalFreq + 16
    · simp only [if_pos hren] at hd
      set fs2 := bumped.map halveUp with hfs2
      have h2len : fs2.length = m.frequencies.length := by
        simp [hfs2, hblen]
      have h2pos : ∀ fr ∈ fs2, 1 ≤ fr := by
        intro fr hfr
        rw [hfs2, List.mem_map] at hfr
        obtain ⟨a, ha, rfl⟩ := hfr
        exact halveUp_pos a (hbpos a ha)
      by_cases hsw : 0 < x ∧ fs2.getD (x - 1) 0 < fs2.getD x 0
      · rw [if_pos hsw] at hd
        simp only [Option.some.injEq, Prod.mk.injEq] at hd
        obtain ⟨-, hm⟩ := hd
        subst hm
        have hperm2 : (swapAdj fs2 x).Perm fs2 :=
          swapAdj_perm fs2 x hsw.1 (by omega)
        refine ⟨by simp [hperm2.sum_eq], ?_, ?_, ?_⟩
        · intro fr hfr
          exact h2pos fr (hperm2.mem_iff.mp hfr)
        · exact swapAdj_perm m.symbols x hsw.1 hxs
        · simp [swapAdj_length, hlen, h2len]
      · rw [if_neg hsw] at hd
        simp only [Option.some.injEq, Prod.mk.injEq] at hd
        obtain ⟨-, hm⟩ := hd
        subst hm
        exact ⟨rfl, h2pos, List.Perm.refl _, by simp [hlen, h2len]⟩
    · simp only [if_neg hren] at hd
      by_cases hsw : 0 < x ∧ bumped.getD (x - 1) 0 < bumped.getD x 0
      · rw [if_pos hsw] at hd
        simp only [Option.some.injEq, Prod.mk.injEq] at hd
        obtain ⟨-, hm⟩ := hd
        subst hm
        have hperm2 : (swapAdj bumped x).Perm bumped :=
          swapAdj_perm bumped x hsw.1 (by omega)
        refine ⟨?_, ?_, ?_, ?_⟩
        · simp [hperm2.sum_eq, hbsum, htot]
        · intro fr hfr
          exact hbpos fr (hperm2.mem_iff.mp hfr)
        · exact swapAdj_perm m.symbols x hsw.1 hxs
        · simp [swapAdj_length, hlen, hblen]
      · rw [if_neg hsw] at hd
        simp only [Option.some.injEq, Prod.mk.injEq] at hd
        obtain ⟨-, hm⟩ := hd
        subst hm
        exact ⟨by simp [hbsum, htot], hbpos, List.Perm.refl _, by simp [hlen, hblen]⟩

/-- C3: after any sequence of successful `Model::decode` calls starting
from `Model::new(max_sym)`, `total_freq` equals the sum of the
frequencies, every frequency is at least 1, and the symbols vector is a
permutation of the initial alphabet `0..=max_sym`. -/
theorem model_invariant (maxSym : Nat) (fs : List Nat) (m : Model)
    (h : (Model.new maxSym).decodeSeq fs = some m) :
    m.totalFreq = m.frequencies.sum ∧
    (∀ fr ∈ m.frequencies, 1 ≤ fr) ∧
    m.symbols.Perm (List.range (maxSym + 1)) ∧
    m.symbols.length = m.frequencies.length := by
  suffices haux : ∀ (fs : List Nat) (m₀ m : Model),
      m₀.totalFreq = m₀.frequencies.sum →
      (∀ fr ∈ m₀.frequencies, 1 ≤ fr) →
      m₀.symbols.Perm (List.range (maxSym + 1)) →
      m₀.symbols.length = m₀.frequencies.length →
      m₀.decodeSeq fs = some m →
      m.totalFreq = m.frequencies.sum ∧
      (∀ fr ∈ m.frequencies, 1 ≤ fr) ∧
      m.symbols.Perm (List.range (maxSym + 1)) ∧
      m.symbols.length = m.frequencies.length by
    refine haux fs (Model.new maxSym) m ?_ ?_ ?_ ?_ h
    · simp [Model.new]
    · intro fr hfr
      simp [Model.new] at hfr
      omega
    · simp [Model.new]
    · simp [Model.new]
  intro fs
  induction fs with
  | nil =>
    intro m₀ m h1 h2 h3 h4 h5
    simp only [Model.decodeSeq, Option.some.injEq] at h5
    subst h5
    exact ⟨h1, h2, h3, h4⟩
  | cons f rest ih =>
    intro m₀ m h1 h2 h3 h4 h5
    simp only [Model.decodeSeq] at h5
    cases hd : m₀.decode f with
    | none => rw [hd] at h5; simp at h5
    | some p =>
      obtain ⟨s, m₁⟩ := p
      rw [hd] at h5
      obtain ⟨g1, g2, g3, g4⟩ := decode_preserves m₀ m₁ s f h4 h1 h2 hd
      exact ih m₁ m g1 g2 (g3.trans h3) g4 h5

/-- C3 witness: two successful decodes from `Model::new(1)` and the
invariant at the resulting state. -/
theorem model_invariant_witness :
    (Model.new 1).decodeSeq [0, 1] = some ⟨34, [0, 1], [33, 1]⟩ ∧
    ((34 : Nat) = ([33, 1] : List Nat).sum ∧
      (∀ fr ∈ ([33, 1] : List Nat), 1 ≤ fr) ∧
      ([0, 1] : List Nat).Perm (List.range 2) ∧
      ([0, 1] : List Nat).length = ([33, 1] : List Nat).length) :=
  ⟨by decide, model_invariant 1 [0, 1] ⟨34, [0, 1], [33, 1]⟩ (by decide)⟩

/-- C4: in delta mode the AP value written for each record is its
alignment start minus the previous record's (seeded from the writer's
initial alignment start), 0 when both are absent, and `InvalidInput`
when exactly one of the pair is absent; with delta mode off the value is
the record's alignment start, or 0 when absent. -/
theorem alignment_start_values :
    (∀ (init : Option Nat) (starts : List (Option Nat)),
        apChainOk init starts = true →
        apValues true init starts =
          .ok (List.zipWith apDelta1 (init :: starts) starts)) ∧
    (∀ p, apValue true (some p) none = .error .invalidInput) ∧
    (∀ a, apValue true none (some a) = .error .invalidInput) ∧
    (∀ (prev : Option Nat) (a : Nat), a ≤ i32Max →
        apValue false prev (some a) = .ok (Int.ofNat a)) ∧
    (∀ prev : Option Nat, apValue false prev none = .ok 0) := by
  refine ⟨?_, fun p => rfl, fun a => rfl, ?_, fun prev => rfl⟩
  · intro init starts
    induction starts generalizing init with
    | nil => intro _; rfl
    | cons cur rest ih =>
      intro h
      rw [apChainOk, Bool.and_eq_true] at h
      obtain ⟨h1, h2⟩ := h
      cases init with
      | none =>
        cases cur with
        | none =>
          simp only [apValues, apValue, if_pos rfl, List.zipWith]
          rw [ih none h2]
          rfl
        | some a => simp [apPairOk] at h1
      | some p =>
        cases cur with
        | none => simp [apPairOk] at h1
        | some a =>
          simp only [apPairOk, Bool.and_eq_true, decide_eq_true_eq] at h1
          simp only [apValues, apValue, tryI32, if_pos h1.2, if_pos h1.1,
            List.zipWith]
          rw [ih (some a) h2]
          rfl
  · intro prev a ha
    simp [apValue, tryI32, ha]

/-- C4 witness: a concrete delta-mode chain and a concrete
absolute-mode write. -/
theorem alignment_start_values_witness :
    apChainOk (some 1) [some 3, some 2] = true ∧
    apValues true (some 1) [some 3, some 2] = .ok [2, -1] ∧
    apValue false (some 5) (some 7) = .ok 7 := by
  refine ⟨by decide, ?_, ?_⟩
  · rw [alignment_start_values.1 (some 1) [some 3, some 2] (by decide)]
    decide
  · exact alignment_start_values.2.2.2.1 (some 5) 7 (by decide)

theorem base_canonicalIdx_inj (a b : Base)
    (h : a.canonicalIdx = b.canonicalIdx) : a = b := by
  cases a <;> cases b <;> first | rfl | simp [Base.canonicalIdx] at h

theorem rankLE_total (h : Histogram) (r a b : Base) :
    rankLE h r a b ∨ rankLE h r b a := by
  unfold rankLE
  rcases Nat.le_total a.canonicalIdx b.canonicalIdx with hi | hi <;> omega

theorem rankLE_trans (h : Histogram) (r a b c : Base)
    (hab : rankLE h r a b) (hbc : rankLE h r b c) : rankLE h r a c := by
  unfold rankLE at *
  omega

/-- C5: for every histogram, each reference row of the built
substitution matrix assigns codes 0..3 to the four non-reference bases
in descending count order with ties broken by the canonical order
A<C<G<T<N, and the spec's example observations at reference A yield the
row [T, G, C, N]. -/
theorem substitution_matrix_rows :
    (∀ (h : Histogram) (r : Base),
        (subRow h r).Perm (canonicalBases.filter (fun b => ¬ b = r)) ∧
        (subRow h r).Pairwise (fun a b =>
          h r b < h r a ∨
            (h r a = h r b ∧ a.canonicalIdx < b.canonicalIdx))) ∧
    subRow exampleHistogram .A = [.T, .G, .C, .N] := by
  constructor
  · intro h r
    constructor
    · exact List.perm_insertionSort _ _
    · have hs : List.Sorted (rankLE h r) (subRow h r) := by
        haveI : IsTotal Base (rankLE h r) := ⟨rankLE_total h r⟩
        haveI : IsTrans Base (rankLE h r) := ⟨rankLE_trans h r⟩
        exact List.sorted_insertionSort _ _
      have hnd : (subRow h r).Nodup := by
        have hbase : (canonicalBases.filter (fun b => ¬ b = r)).Nodup := by
          apply List.Nodup.filter
          decide
        exact ((List.perm_insertionSort _ _).nodup_iff).mpr hbase
      refine (hs.and hnd).imp ?_
      rintro a b ⟨hrank, hne⟩
      rcases hrank with hlt | ⟨heq, hle⟩
      · exact Or.inl hlt
      · refine Or.inr ⟨heq, lt_of_le_of_ne hle ?_⟩
        intro hidx
        exact hne (base_canonicalIdx_inj a b hidx)
  · decide

theorem fpDeltas_go (ps : List Nat) : ∀ prev : Nat,
    List.Chain' (· ≤ ·) (prev :: ps) →
    (∀ p ∈ ps, p ≤ i32Max) →
    fpDeltas prev ps =
      .ok (List.zipWith (fun p q => Int.ofNat p - Int.ofNat q) ps
        (prev :: ps)) := by
  induction ps with
  | nil => intro prev _ _; rfl
  | cons p rest ih =>
    intro prev hchain hbound
    have hpp : prev ≤ p := (List.chain'_cons.mp hchain).1
    have hchain' := (List.chain'_cons.mp hchain).2
    have hb : p ≤ i32Max := hbound p (by simp)
    unfold fpDeltas
    rw [if_neg (by omega), if_pos (by omega)]
    rw [ih p hchain' (fun q hq => hbound q (by simp [hq]))]
    simp [List.zipWith, Int.ofNat_sub hpp]

/-- C6: for a mapped record whose feature positions are non-decreasing
(and representable), the FP values emitted are exactly the successive
deltas `p_k - p_{k-1}`, the first taken from zero, and the delta
computation neither underflows (panics) nor errors. -/
theorem feature_position_deltas (ps : List Nat)
    (hmono : List.Chain' (· ≤ ·) ps)
    (hbound : ∀ p ∈ ps, p ≤ i32Max) :
    fpDeltas 0 ps =
      .ok (List.zipWith (fun p q => Int.ofNat p - Int.ofNat q) ps
        (0 :: ps)) := by
  apply fpDeltas_go
  · cases ps with
    | nil => simp
    | cons p rest => exact List.chain'_cons.mpr ⟨Nat.zero_le p, hmono⟩
  · exact hbound

/-- C6 witness: concrete non-decreasing feature positions and their
emitted deltas. -/
theorem feature_position_deltas_witness :
    List.Chain' (· ≤ ·) [1, 3, 3, 7] ∧
    (∀ p ∈ [1, 3, 3, 7], p ≤ i32Max) ∧
    fpDeltas 0 [1, 3, 3, 7] = .ok [1, 2, 0, 4] := by
  have hc : List.Chain' (· ≤ ·) [1, 3, 3, 7] := by
    simp only [List.chain'_cons, List.chain'_singleton, and_true]
    omega
  refine ⟨hc, by decide, ?_⟩
  rw [feature_position_deltas [1, 3, 3, 7] hc (by decide)]
  decide

/-- C1 counterexample: the record writer's encode operations are not
defined for every encoding kind — `encode_itf8` on a Huffman encoding,
`encode_byte` on a Gamma encoding and `encode_byte_array` on a Beta
encoding all hit `todo!()` (a panic), even with an external block
open. -/
theorem encode_unimplemented_kinds_panic :
    encodeItf8 (.huffman [0] [0]) ⟨[], [(1, [])]⟩ 0 = .panic ∧
    encodeByte (.gamma 0) ⟨[], [(1, [])]⟩ 0 = .panic ∧
    encodeByteArray (.beta 0 8) ⟨[], [(1, [])]⟩ [1] = .panic :=
  ⟨rfl, rfl, rfl⟩

/-- C1 (amended): `encode_itf8` and `encode_byte` are defined only for
the External kind and `encode_byte_array` only for External,
ByteArrayLen and ByteArrayStop; those paths route the bytes to the
external block named by `block_content_id` (never to the core bit
writer, which is left untouched), failing with `MissingExternalBlock`
when that block is not open; every other kind panics via `todo!()`. -/
theorem encode_routing_amended :
    (∀ (e : Encoding) (st : WState) (v : Int),
        (∃ id, e = Encoding.external id) ∨ encodeItf8 e st v = .panic) ∧
    (∀ (st : WState) (v : Int) (id : Int) (buf : List Nat),
        lookupBlock st.external id = some buf →
        encodeItf8 (.external id) st v =
          .ok ⟨st.core, appendBlock st.external id (itf8Bytes v)⟩) ∧
    (∀ (st : WState) (v : Int) (id : Int),
        lookupBlock st.external id = none →
        encodeItf8 (.external id) st v =
          .error (.missingExternalBlock id)) ∧
    (∀ (e : Encoding) (st : WState) (v : Nat),
        (∃ id, e = Encoding.external id) ∨ encodeByte e st v = .panic) ∧
    (∀ (st : WState) (v : Nat) (id : Int) (buf : List Nat),
        lookupBlock st.external id = some buf →
        encodeByte (.external id) st v =
          .ok ⟨st.core, appendBlock st.external id [v]⟩) ∧
    (∀ (e : Encoding) (st : WState) (data : List Nat),
        (∃ id, e = Encoding.external id) ∨
        (∃ l w, e = Encoding.byteArrayLen l w) ∨
        (∃ s id, e = Encoding.byteArrayStop s id) ∨
        encodeByteArray e st data = .panic) ∧
    (∀ (st : WState) (data : List Nat) (id : Int) (buf : List Nat),
        lookupBlock st.external id = some buf →
        encodeByteArray (.external id) st data =
          .ok ⟨st.core, appendBlock st.external id data⟩) ∧
    (∀ (st : WState) (data : List Nat) (s : Nat) (id : Int)
        (buf : List Nat),
        lookupBlock st.external id = some buf →
        encodeByteArray (.byteArrayStop s id) st data =
          .ok ⟨st.core, appendBlock st.external id (data ++ [s])⟩) ∧
    (∀ (lenE valE : Encoding) (st : WState) (data : List Nat),
        data.length ≤ i32Max →
        encodeByteArray (.byteArrayLen lenE valE) st data =
          match encodeItf8 lenE st (Int.ofNat data.length) with
          | .ok st' => encodeByteArray valE st' data
          | .error e => .error e
          | .panic => .panic) := by
  refine ⟨?_, ?_, ?_, ?_, ?_, ?_, ?_, ?_, ?_⟩
  · intro e st v
    cases e <;>
      first
        | exact Or.inl ⟨_, rfl⟩
        | exact Or.inr rfl
  · intro st v id buf h
    simp [encodeItf8, h]
  · intro st v id h
    simp [encodeItf8, h]
  · intro e st v
    cases e <;>
      first
        | exact Or.inl ⟨_, rfl⟩
        | exact Or.inr rfl
  · intro st v id buf h
    simp [encodeByte, h]
  · intro e st data
    cases e <;>
      first
        | exact Or.inl ⟨_, rfl⟩
        | exact Or.inr (Or.inl ⟨_, _, rfl⟩)
        | exact Or.inr (Or.inr (Or.inl ⟨_, _, rfl⟩))
        | exact Or.inr (Or.inr (Or.inr rfl))
  · intro st data id buf h
    simp [encodeByteArray, h]
  · intro st data s id buf h
    simp [encodeByteArray, h]
  · intro lenE valE st data h
    simp only [encodeByteArray, if_pos h]

/-- C1 witness: the external path of `encode_itf8` appends the ITF8
bytes to the named open block. -/
theorem encode_routing_amended_witness :
    lookupBlock ([(1, [7])] : List (Int × List Nat)) 1 = some [7] ∧
    encodeItf8 (.external 1) ⟨[], [(1, [7])]⟩ 5 =
      .ok ⟨[], appendBlock [(1, [7])] 1 (itf8Bytes 5)⟩ :=
  ⟨rfl, encode_routing_amended.2.1 ⟨[], [(1, [7])]⟩ 5 1 [7] rfl⟩

theorem encodeItf8_not_missing_series (e : Encoding) (st : WState) (v : Int)
    (ds : DataSeries) :
    encodeItf8 e st v ≠ .error (.missingDataSeriesEncoding ds) := by
  cases e <;> simp only [encodeItf8] <;>
    first
      | (intro hcon; exact WResult.noConfusion hcon)
      | (cases h : lookupBlock st.external _ <;> simp)

/-- C8 counterexample: a compression header whose data-series encoding
map is empty cannot exist — building the map from no entries fails
before any record is encoded — and the BF write step itself fails with
`MissingExternalBlock`, not `MissingDataSeriesEncoding(BamBitFlags)`,
when its (mandatory) encoding points at an unopened block. -/
theorem empty_dsem_counterexample :
    buildDSEM emptyDSEMBuilder = .error (.missingEncoding .bamBitFlags) ∧
    writeBamBitFlags exampleDSEM ⟨[], []⟩ 0 =
      .error (.missingExternalBlock 1) :=
  ⟨rfl, rfl⟩

/-- C8 (amended): the BF series encoding is a mandatory field of the
data-series encoding map, so `write_bam_bit_flags` can never fail with
`MissingDataSeriesEncoding`; a map without a BF entry is rejected when
it is built (the reader surfaces that as `InvalidData`); the
`MissingDataSeriesEncoding` error arises at encode time only for the
optional series, e.g. `write_reference_id` fails with
`MissingDataSeriesEncoding(ReferenceId)` when RI is absent. -/
theorem dsem_missing_series_amended :
    (∀ (dsem : DataSeriesEncodingMap) (st : WState) (flags : Nat)
        (ds : DataSeries),
        writeBamBitFlags dsem st flags ≠
          .error (.missingDataSeriesEncoding ds)) ∧
    (∀ b : DSEMBuilder, b DataSeries.bamBitFlags = none →
        buildDSEM b = .error (.missingEncoding .bamBitFlags)) ∧
    (∀ (dsem : DataSeriesEncodingMap) (st : WState) (rid : Option Nat),
        dsem.referenceId = none →
        writeReferenceId dsem st rid =
          .error (.missingDataSeriesEncoding .referenceId)) := by
  refine ⟨?_, ?_, ?_⟩
  · intro dsem st flags ds
    exact encodeItf8_not_missing_series _ _ _ _
  · intro b hb
    simp [buildDSEM, hb]
  · intro dsem st rid h
    simp [writeReferenceId, h]

/-- C8 witness: the empty builder and the RI-less concrete map satisfy
the amended statement's hypotheses. -/
theorem dsem_missing_series_amended_witness :
    (emptyDSEMBuilder DataSeries.bamBitFlags = none ∧
      buildDSEM emptyDSEMBuilder =
        .error (.missingEncoding .bamBitFlags)) ∧
    (exampleDSEM.referenceId = none ∧
      writeReferenceId exampleDSEM ⟨[], []⟩ none =
        .error (.missingDataSeriesEncoding .referenceId)) ∧
    writeBamBitFlags exampleDSEM ⟨[], []⟩ 3 ≠
      .error (.missingDataSeriesEncoding .bamBitFlags) :=
  ⟨⟨rfl, dsem_missing_series_amended.2.1 emptyDSEMBuilder rfl⟩,
    ⟨rfl, dsem_missing_series_amended.2.2 exampleDSEM ⟨[], []⟩ none rfl⟩,
    dsem_missing_series_amended.1 exampleDSEM ⟨[], []⟩ 3 .bamBitFlags⟩

theorem pmLoop_entries (n : Nat) (st : PMState) (buf : List Nat) :
    pmLoop n st buf =
      (getPMEntries n buf).map (fun p => (p.1.foldl pmApply st, p.2)) := by
  induction n generalizing st buf with
  | zero => rfl
  | succ k ih =>
    simp only [pmLoop, getPMEntries]
    cases h : getPMEntry buf with
    | error e => rfl
    | ok p =>
      obtain ⟨e, buf'⟩ := p
      simp only [ih]
      cases h2 : getPMEntries k buf' with
      | error e2 => rfl
      | ok q => rfl

theorem foldl_pmApply_sm (es : List PMEntry) (st : PMState)
    (h : ∀ e ∈ es, e.isSM = false) :
    (es.foldl pmApply st).substitutionMatrix = st.substitutionMatrix := by
  induction es generalizing st with
  | nil => rfl
  | cons e rest ih =>
    rw [List.foldl_cons, ih (pmApply st e)
      (fun x hx => h x (List.mem_cons_of_mem e hx))]
    cases e <;> simp_all [PMEntry.isSM, pmApply]

theorem foldl_pmApply_td (es : List PMEntry) (st : PMState)
    (h : ∀ e ∈ es, e.isTD = false) :
    (es.foldl pmApply st).tagIdsDictionary = st.tagIdsDictionary := by
  induction es generalizing st with
  | nil => rfl
  | cons e rest ih =>
    rw [List.foldl_cons, ih (pmApply st e)
      (fun x hx => h x (List.mem_cons_of_mem e hx))]
    cases e <;> simp_all [PMEntry.isTD, pmApply]

theorem foldl_pmApply_rn (es : List PMEntry) (st : PMState)
    (h : ∀ e ∈ es, e.isRN = false) :
    (es.foldl pmApply st).readNamesIncluded = st.readNamesIncluded := by
  induction es generalizing st with
  | nil => rfl
  | cons e rest ih =>
    rw [List.foldl_cons, ih (pmApply st e)
      (fun x hx => h x (List.mem_cons_of_mem e hx))]
    cases e <;> simp_all [PMEntry.isRN, pmApply]

theorem foldl_pmApply_ap (es : List PMEntry) (st : PMState)
    (h : ∀ e ∈ es, e.isAP = false) :
    (es.foldl pmApply st).apDataSeriesDelta = st.apDataSeriesDelta := by
  induction es generalizing st with
  | nil => rfl
  | cons e rest ih =>
    rw [List.foldl_cons, ih (pmApply st e)
      (fun x hx => h x (List.mem_cons_of_mem e hx))]
    cases e <;> simp_all [PMEntry.isAP, pmApply]

theorem foldl_pmApply_rr (es : List PMEntry) (st : PMState)
    (h : ∀ e ∈ es, e.isRR = false) :
    (es.foldl pmApply st).referenceRequired = st.referenceRequired := by
  induction es generalizing st with
  | nil => rfl
  | cons e rest ih =>
    rw [List.foldl_cons, ih (pmApply st e)
      (fun x hx => h x (List.mem_cons_of_mem e hx))]
    cases e <;> simp_all [PMEntry.isRR, pmApply]

theorem pmFinish_ok (st : PMState) (pm : PreservationMap)
    (h : pmFinish st = .ok pm) :
    pm.readNamesIncluded = st.readNamesIncluded ∧
    pm.apDataSeriesDelta = st.apDataSeriesDelta ∧
    pm.referenceRequired = st.referenceRequired := by
  cases hsm : st.substitutionMatrix with
  | none =>
    rw [pmFinish, hsm] at h
    exact absurd h (by simp)
  | some sm =>
    rw [pmFinish, hsm] at h
    cases htd : st.tagIdsDictionary with
    | none =>
      rw [htd] at h
      exact absurd h (by simp)
    | some td =>
      rw [htd] at h
      simp only [Except.ok.injEq] at h
      subst h
      exact ⟨rfl, rfl, rfl⟩

/-- C7: whenever the preservation-map wire structure itself parses (data
length, map length and all entries), a decode whose entry list lacks an
SM or a TD entry fails with `InvalidData`, and on a successful decode
each of the boolean entries RN, AP, RR that is absent from the entry
list defaults to `true`. -/
theorem preservation_map_requirements
    (src r0 buf bufRest : List Nat) (dataLenI mapLenI : Int)
    (dataLen : Nat) (es : List PMEntry)
    (h1 : getItf8 src = .ok (dataLenI, r0))
    (h2 : usizeOfItf8 dataLenI = .ok dataLen)
    (h3 : ¬ r0.length < dataLen)
    (h4 : getItf8 (r0.take dataLen) = .ok (mapLenI, buf))
    (h5 : getPMEntries mapLenI.toNat buf = .ok (es, bufRest)) :
    (((∀ e ∈ es, e.isSM = false) ∨ (∀ e ∈ es, e.isTD = false)) →
        getPreservationMap src = .error .invalidData) ∧
    (∀ (pm : PreservationMap) (rest : List Nat),
        getPreservationMap src = .ok (pm, rest) →
        ((∀ e ∈ es, e.isRN = false) → pm.readNamesIncluded = true) ∧
        ((∀ e ∈ es, e.isAP = false) → pm.apDataSeriesDelta = true) ∧
        ((∀ e ∈ es, e.isRR = false) → pm.referenceRequired = true)) := by
  have hred : getPreservationMap src =
      (match pmFinish (es.foldl pmApply pmInit) with
        | .error e => .error e
        | .ok pm => .ok (pm, r0.drop dataLen)) := by
    simp only [getPreservationMap, h1, h2, if_neg h3, h4, pmLoop_entries,
      h5, Except.map]
  constructor
  · intro habs
    rw [hred]
    have hfin : pmFinish (es.foldl pmApply pmInit) = .error .invalidData := by
      rcases habs with hsm | htd
      · rw [pmFinish, foldl_pmApply_sm es pmInit hsm]
        rfl
      · rw [pmFinish]
        cases hsm2 : (es.foldl pmApply pmInit).substitutionMatrix with
        | none => rfl
        | some sm => rw [foldl_pmApply_td es pmInit htd]; rfl
    rw [hfin]
  · intro pm rest hok
    rw [hred] at hok
    cases hfin : pmFinish (es.foldl pmApply pmInit) with
    | error e =>
      rw [hfin] at hok
      exact absurd hok (by simp)
    | ok pm' =>
      rw [hfin] at hok
      simp only [Except.ok.injEq, Prod.mk.injEq] at hok
      obtain ⟨heq, -⟩ := hok
      subst heq
      obtain ⟨hrn, hap, hrr⟩ := pmFinish_ok _ _ hfin
      refine ⟨?_, ?_, ?_⟩
      · intro h
        rw [hrn, foldl_pmApply_rn es pmInit h]
        rfl
      · intro h
        rw [hap, foldl_pmApply_ap es pmInit h]
        rfl
      · intro h
        rw [hrr, foldl_pmApply_rr es pmInit h]
        rfl

/-- C7 witness: the source's own "no substitution matrix" test vector (a
well-formed map whose single entry is TD) decodes to `InvalidData`. -/
theorem preservation_map_requirements_witness :
    getPreservationMap [8, 1, 84, 68, 4, 67, 79, 90, 0] =
      .error .invalidData :=
  (preservation_map_requirements
      [8, 1, 84, 68, 4, 67, 79, 90, 0] [1, 84, 68, 4, 67, 79, 90, 0]
      [84, 68, 4, 67, 79, 90, 0] [] 8 1 8 [.td [[⟨67, 79, 90⟩]]]
      (by decide) (by decide) (by decide) (by decide) (by decide)).1
    (Or.inl (by decide))

/-- C9: decoding the data-series encoding map rejects any entry whose
two-byte key is outside the known vocabulary with `InvalidData`, while
an entry keyed by the reserved TC or TN key has its encoding descriptor
parsed and is then discarded: the loop continues on the bytes after that
encoding with the builder unchanged. -/
theorem dsem_unknown_and_reserved_keys :
    (∀ (b0 b1 : Nat) (rest : List Nat), dsFromBytes b0 b1 = none →
        getDSKey (b0 :: b1 :: rest) = .error .invalidData) ∧
    (∀ (n : Nat) (b : DSEMBuilder) (buf r r' : List Nat)
        (key : DataSeries) (enc : Encoding),
        getDSKey buf = .ok (key, r) →
        (key = DataSeries.reservedTc ∨ key = DataSeries.reservedTn) →
        getEncoding r = .ok (enc, r') →
        dsemLoop (n + 1) b buf = dsemLoop n b r') ∧
    (∀ (n : Nat) (b : DSEMBuilder) (buf : List Nat),
        getDSKey buf = .error .invalidData →
        dsemLoop (n + 1) b buf = .error .invalidData) := by
  refine ⟨?_, ?_, ?_⟩
  · intro b0 b1 rest h
    simp [getDSKey, h]
  · intro n b buf r r' key enc h1 hkey h2
    simp only [dsemLoop, h1, h2]
    rcases hkey with rfl | rfl <;> rfl
  · intro n b buf h
    simp only [dsemLoop, h]

/-- C9 witness: an unknown key ("XX") is rejected, and a TC entry with a
Null encoding is consumed without touching the builder. -/
theorem dsem_unknown_and_reserved_keys_witness :
    getDSKey [88, 88] = .error .invalidData ∧
    dsemLoop 1 emptyDSEMBuilder [84, 67, 0, 0] =
      dsemLoop 0 emptyDSEMBuilder [] := by
  constructor
  · exact dsem_unknown_and_reserved_keys.1 88 88 [] (by decide)
  · exact dsem_unknown_and_reserved_keys.2.1 0 emptyDSEMBuilder
      [84, 67, 0, 0] [0, 0] [] .reservedTc .null (by decide) (Or.inl rfl)
      (by decide)

theorem parseTDGo_no_nul (t : List Nat) : ∀ acc : List Nat,
    (∀ b ∈ t, b ≠ 0) → parseTDGo acc t = .ok [] := by
  induction t with
  | nil => intro acc _; rfl
  | cons b rest ih =>
    intro acc h
    have hb : b ≠ 0 := h b (by simp)
    simp only [parseTDGo, if_neg hb]
    exact ih (acc ++ [b]) (fun x hx => h x (by simp [hx]))

theorem parseTDGo_append (bs : List Nat) : ∀ (acc t : List Nat),
    (∀ b ∈ t, b ≠ 0) →
    parseTDGo acc (bs ++ 0 :: t) = parseTDGo acc (bs ++ [0]) := by
  induction bs with
  | nil =>
    intro acc t ht
    simp only [List.nil_append, parseTDGo, if_pos rfl, List.append_eq]
    rw [parseTDGo_no_nul t [] ht]
    cases parseTagLine acc <;> rfl
  | cons b bs' ih =>
    intro acc t ht
    by_cases hb : b = 0
    · subst hb
      simp only [List.cons_append, parseTDGo, if_pos rfl, List.append_eq]
      rw [ih [] t ht]
      rfl
    · simp only [List.cons_append, parseTDGo, if_neg hb, List.append_eq]
      exact ih (acc ++ [b]) t ht

theorem chunks3_short (t : List Nat) (h : t.length < 3) : chunks3 t = [] := by
  rcases t with _ | ⟨a, _ | ⟨b, _ | ⟨c, r⟩⟩⟩
  · rfl
  · rfl
  · rfl
  · simp only [List.length_cons] at h
    omega

theorem chunks3_append (cs t : List Nat) (h : cs.length % 3 = 0)
    (ht : t.length < 3) : chunks3 (cs ++ t) = chunks3 cs := by
  obtain ⟨n, hn⟩ : ∃ n, cs.length = 3 * n := ⟨cs.length / 3, by omega⟩
  clear h
  induction n generalizing cs with
  | zero =>
    have hnil : cs = [] := List.eq_nil_of_length_eq_zero (by omega)
    subst hnil
    simp [chunks3_short t ht, chunks3]
  | succ k ih =>
    rcases cs with _ | ⟨a, _ | ⟨b, _ | ⟨c, r⟩⟩⟩
    · simp at hn
    · simp only [List.length_cons, List.length_nil] at hn
      omega
    · simp only [List.length_cons, List.length_nil] at hn
      omega
    · have hr : r.length = 3 * k := by
        simp only [List.length_cons] at hn
        omega
      simp only [List.cons_append, chunks3, List.append_eq]
      rw [ih r hr]

/-- C10: in the TD tag-IDs dictionary decoder, bytes after the last NUL
delimiter (that are not themselves followed by a NUL) are silently
discarded — they produce no line and no error — and within one
NUL-terminated line a trailing remainder of 1 or 2 bytes that does not
form a complete 3-byte tag key is silently ignored. -/
theorem tag_dictionary_trailing_bytes :
    (∀ t : List Nat, (∀ b ∈ t, b ≠ 0) → parseTDLines t = .ok []) ∧
    (∀ bs t : List Nat, (∀ b ∈ t, b ≠ 0) →
        parseTDLines (bs ++ 0 :: t) = parseTDLines (bs ++ [0])) ∧
    (∀ cs extra : List Nat, cs.length % 3 = 0 → extra.length < 3 →
        parseTagLine (cs ++ extra) = parseTagLine cs) := by
  refine ⟨?_, ?_, ?_⟩
  · intro t ht
    exact parseTDGo_no_nul t [] ht
  · intro bs t ht
    exact parseTDGo_append bs [] t ht
  · intro cs extra h ht
    unfold parseTagLine
    rw [chunks3_append cs extra h ht]

/-- C10 witness: two trailing non-NUL bytes after the last NUL produce
no extra line, and a 2-byte remainder inside a line is ignored. -/
theorem tag_dictionary_trailing_bytes_witness :
    parseTDLines [67, 79, 90, 0, 65, 66] = parseTDLines [67, 79, 90, 0] ∧
    parseTagLine [67, 79, 90, 65, 66] = parseTagLine [67, 79, 90] := by
  constructor
  · exact tag_dictionary_trailing_bytes.2.1 [67, 79, 90] [65, 66]
      (by decide)
  · exact tag_dictionary_trailing_bytes.2.2 [67, 79, 90] [65, 66]
      (by decide) (by decide)

end Noodles
